import Mathlib

/-!
Verification of the cagey-math linear-algebra primitives.

The definitions below are shallow embeddings of the C++ sources:
  * `Vec2`, `Vec3`  — `Vector<T,2>` / `Vector<T,3>` (named components x,y,z);
  * `Matrix22`      — `Matrix<T,2,2>` from cagey-math/Matrix22.hh, stored as
                      two column vectors (column-major, element (row,col) is
                      `m[col][row]`);
  * generic-N vector functions (`dot`, `lengthSquared`, `length`,
    `lengthInverted`, `normalize`, scalar/vector division) from
    cagey/math/Vector.hh, embedded over `Fin n → _`.

Machine floating-point arithmetic is modelled by exact arithmetic over ℚ
(concrete examples) and ℝ (square roots, π).
-/

namespace CageyMath

/-- Two-component vector: `Vector<T,2>` with components `x`, `y`. -/
structure Vec2 (α : Type) where
  x : α
  y : α
deriving DecidableEq, Repr

/-- Three-component vector: `Vector<T,3>` with components `x`, `y`, `z`. -/
structure Vec3 (α : Type) where
  x : α
  y : α
  z : α
deriving DecidableEq, Repr

/-- Indexed component access `v[i]` of a 2-component vector
(`operator[]` on `Vector<T,2>`; index 0 is `x`, index 1 is `y`). -/
def Vec2.comp {α : Type} (v : Vec2 α) : Fin 2 → α
  | ⟨0, _⟩ => v.x
  | ⟨1, _⟩ => v.y

/-- Indexed component access `v[i]` of a 3-component vector. -/
def Vec3.comp {α : Type} (v : Vec3 α) : Fin 3 → α
  | ⟨0, _⟩ => v.x
  | ⟨1, _⟩ => v.y
  | ⟨2, _⟩ => v.z

/-- `Matrix<T,2,2>` (cagey-math/Matrix22.hh): two column vectors,
column-major storage. `col0` is `columns[0]`, `col1` is `columns[1]`. -/
structure Matrix22 (α : Type) where
  col0 : Vec2 α
  col1 : Vec2 α
deriving DecidableEq, Repr

/-- Column access `m[i]` (`Matrix<T,2,2>::operator[]`). -/
def Matrix22.col {α : Type} (m : Matrix22 α) : Fin 2 → Vec2 α
  | ⟨0, _⟩ => m.col0
  | ⟨1, _⟩ => m.col1

/-- Double-index element access `m[c][r]`: column `c`, row `r`. -/
def Matrix22.el {α : Type} (m : Matrix22 α) (c r : Fin 2) : α :=
  (m.col c).comp r

/-- The element constructor `Matrix(x1, y1, x2, y2)`
(Matrix22.hh): assigns `columns[0][0]=x1; columns[0][1]=y1;
columns[1][0]=x2; columns[1][1]=y2`, i.e. column-major order. -/
def Matrix22.ofElements {α : Type} (x1 y1 x2 y2 : α) : Matrix22 α :=
  ⟨⟨x1, y1⟩, ⟨x2, y2⟩⟩

/-- `Matrix<T,2,2>::identity()`: constructed from columns `{1, 0}` and
`{0, 1}`. -/
def Matrix22.identity {α : Type} [Field α] : Matrix22 α :=
  ⟨⟨1, 0⟩, ⟨0, 1⟩⟩

/-- `determinant` for 2x2 (detail::determinantImpl<T,2,2>::exec):
`mat[0][0] * mat[1][1] - mat[1][0] * mat[0][1]`. -/
def determinant {α : Type} [Field α] (mat : Matrix22 α) : α :=
  mat.col0.x * mat.col1.y - mat.col1.x * mat.col0.y

/-- `operator*(Matrix<T,2,2> const&, RowType const&)` (Matrix22.hh):
the matrix-times-column-vector product
`{lhs[0][0]*rhs.x + lhs[1][0]*rhs.y, lhs[0][1]*rhs.x + lhs[1][1]*rhs.y}`. -/
def mulVec {α : Type} [Field α] (lhs : Matrix22 α) (rhs : Vec2 α) : Vec2 α :=
  ⟨lhs.col0.x * rhs.x + lhs.col1.x * rhs.y,
   lhs.col0.y * rhs.x + lhs.col1.y * rhs.y⟩

/-- `operator*(Matrix<T,2,2> const&, Matrix<T,2,2> const&)` (Matrix22.hh):
matrix-matrix product, built through the column-major element constructor. -/
def mulMat {α : Type} [Field α] (lhs rhs : Matrix22 α) : Matrix22 α :=
  Matrix22.ofElements
    (lhs.col0.x * rhs.col0.x + lhs.col1.x * rhs.col0.y)
    (lhs.col0.y * rhs.col0.x + lhs.col1.y * rhs.col0.y)
    (lhs.col0.x * rhs.col1.x + lhs.col1.x * rhs.col1.y)
    (lhs.col0.y * rhs.col1.x + lhs.col1.y * rhs.col1.y)

/-- `cross(Vector<T,3>, Vector<U,3>)` (cagey/math/Vector.hh): the C++
overload exists only for 3-component vectors; components are
`{lhs[1]*rhs[2] - lhs[2]*rhs[1], lhs[2]*rhs[0] - lhs[0]*rhs[2],
lhs[0]*rhs[1] - lhs[1]*rhs[0]}`. -/
def cross {α : Type} [Field α] (lhs rhs : Vec3 α) : Vec3 α :=
  ⟨lhs.y * rhs.z - lhs.z * rhs.y,
   lhs.z * rhs.x - lhs.x * rhs.z,
   lhs.x * rhs.y - lhs.y * rhs.x⟩

/-- Claim C2: `determinant` is `m[0][0]*m[1][1] - m[1][0]*m[0][1]`, and on
the column-major matrix with columns `{1,2}` and `{3,4}` it returns `-2`. -/
theorem c2_determinant_formula_and_example :
    (∀ m : Matrix22 ℚ,
      determinant m = m.el 0 0 * m.el 1 1 - m.el 1 0 * m.el 0 1) ∧
    determinant (Matrix22.mk (⟨1, 2⟩ : Vec2 ℚ) ⟨3, 4⟩) = -2 := by
  refine ⟨fun m => rfl, by norm_num [determinant]⟩

/-- Claim C3: the matrix-vector product treats the vector as a column:
component 0 is `m[0][0]*v.x + m[1][0]*v.y`, component 1 is
`m[0][1]*v.x + m[1][1]*v.y`; concretely the column-major matrix with
columns `{1,2}`, `{3,4}` applied to `{1,2}` gives `{7,10}`. -/
theorem c3_matrix_vector_product :
    (∀ (m : Matrix22 ℚ) (v : Vec2 ℚ),
      (mulVec m v).comp 0 = m.el 0 0 * v.x + m.el 1 0 * v.y ∧
      (mulVec m v).comp 1 = m.el 0 1 * v.x + m.el 1 1 * v.y) ∧
    mulVec (Matrix22.mk (⟨1, 2⟩ : Vec2 ℚ) ⟨3, 4⟩) ⟨1, 2⟩ = ⟨7, 10⟩ := by
  refine ⟨fun m v => ⟨rfl, rfl⟩, by norm_num [mulVec]⟩

/-- Claim C4: multiplying any 2x2 matrix by the identity matrix on either
side leaves it unchanged. -/
theorem c4_identity_law (m : Matrix22 ℚ) :
    mulMat m Matrix22.identity = m ∧ mulMat Matrix22.identity m = m := by
  obtain ⟨⟨a, b⟩, ⟨c, d⟩⟩ := m
  constructor <;>
    simp [mulMat, Matrix22.identity, Matrix22.ofElements]

/-- Claim C5: `cross` computes the standard 3D cross product
`{a.y*b.z - a.z*b.y, a.z*b.x - a.x*b.z, a.x*b.y - a.y*b.x}` (the C++
overload is declared only for N = 3); concretely
`cross({5,1,4}, {-1,0,2}) = {2,-14,1}`. -/
theorem c5_cross_product :
    (∀ a b : Vec3 ℚ,
      cross a b = ⟨a.y * b.z - a.z * b.y,
                   a.z * b.x - a.x * b.z,
                   a.x * b.y - a.y * b.x⟩) ∧
    cross (Vec3.mk (5 : ℚ) 1 4) (Vec3.mk (-1) 0 2) = ⟨2, -14, 1⟩ := by
  refine ⟨fun a b => rfl, by norm_num [cross]⟩

/-- Modelled from the spec: the repository sources contain no definition of
`inverse` for 2x2 matrices (only its test, Matrix22Tests.cc
MatrixInverseTest); per the spec it is the adjugate divided by the
determinant, laid out column-major with first column
(m11/det, -m01/det) and second column (-m10/det, m00/det). -/
def inverse {α : Type} [Field α] (m : Matrix22 α) : Matrix22 α :=
  Matrix22.ofElements
    (m.col1.y / determinant m) (-m.col0.y / determinant m)
    (-m.col1.x / determinant m) (m.col0.x / determinant m)

/-- Claim C1 counterexample: the claim states
`inverse(Matrix22f((4,2),(7,6)))` has col0 = (0.6, -0.7) and
col1 = (-0.2, 0.4); in fact col0 is (0.6, -0.2) and col1 is (-0.7, 0.4)
(the test asserts `m4[0][1] == -0.2f` and `m4[1][0] == -0.7f`). -/
theorem c1_inverse_claimed_layout_false :
    inverse (Matrix22.mk (⟨4, 2⟩ : Vec2 ℚ) ⟨7, 6⟩) ≠
      Matrix22.mk ⟨6/10, -(7/10)⟩ ⟨-(2/10), 4/10⟩ := by
  norm_num [inverse, determinant, Matrix22.ofElements]

/-- Claim C1 (amended): for a 2x2 matrix with nonzero determinant,
`inverse` is the adjugate divided by the determinant — element (c,r) of
the result reads the transposed cofactor over det — and concretely
`inverse(Matrix22f((4,2),(7,6)))` has col0 = (0.6, -0.2),
col1 = (-0.7, 0.4), while `inverse(identity) = identity`. -/
theorem c1_inverse_amended (m : Matrix22 ℚ) (_h : determinant m ≠ 0) :
    (inverse m).el 0 0 = m.el 1 1 / determinant m ∧
    (inverse m).el 0 1 = -(m.el 0 1) / determinant m ∧
    (inverse m).el 1 0 = -(m.el 1 0) / determinant m ∧
    (inverse m).el 1 1 = m.el 0 0 / determinant m ∧
    inverse (Matrix22.mk (⟨4, 2⟩ : Vec2 ℚ) ⟨7, 6⟩) =
      Matrix22.mk ⟨6/10, -(2/10)⟩ ⟨-(7/10), 4/10⟩ ∧
    inverse (Matrix22.identity : Matrix22 ℚ) = Matrix22.identity := by
  refine ⟨rfl, rfl, rfl, rfl, ?_, ?_⟩ <;>
    norm_num [inverse, determinant, Matrix22.ofElements, Matrix22.identity]

/-- Witness for C1 (amended) at the concrete matrix with columns (4,2)
and (7,6), whose determinant is 10. -/
theorem c1_inverse_amended_witness :
    determinant (Matrix22.mk (⟨4, 2⟩ : Vec2 ℚ) ⟨7, 6⟩) ≠ 0 ∧
    (inverse (Matrix22.mk (⟨4, 2⟩ : Vec2 ℚ) ⟨7, 6⟩)).el 0 0 =
      (Matrix22.mk (⟨4, 2⟩ : Vec2 ℚ) ⟨7, 6⟩).el 1 1 /
        determinant (Matrix22.mk (⟨4, 2⟩ : Vec2 ℚ) ⟨7, 6⟩) := by
  have hdet : determinant (Matrix22.mk (⟨4, 2⟩ : Vec2 ℚ) ⟨7, 6⟩) ≠ 0 := by
    norm_num [determinant]
  exact ⟨hdet, (c1_inverse_amended _ hdet).1⟩

/-- `BaseAngle` (detail/BaseAngle.hh): a unit-tagged wrapper holding
exactly one raw numeric value (modelled here over the exact rationals). -/
structure BaseAngle where
  value : ℚ

/-- `operator/(BaseAngle, T)`: divides the raw value by a scalar,
returning an angle. -/
def BaseAngle.divScalar (lhs : BaseAngle) (val : ℚ) : BaseAngle :=
  ⟨lhs.value / val⟩

/-- `operator/(BaseAngle, BaseAngle const&) -> T` (detail/BaseAngle.hh):
the ratio of the two raw values, returned as the raw scalar type. -/
def BaseAngle.ratio (lhs rhs : BaseAngle) : ℚ :=
  lhs.value / rhs.value

/-- Claim C8: dividing two angles of the same unit yields the
dimensionless ratio of their raw values as the scalar type (contrast
`divScalar`, angle divided by scalar, which again returns an angle);
concretely a 90-unit angle divided by a 45-unit angle is the scalar 2. -/
theorem c8_angle_ratio :
    (∀ lhs rhs : BaseAngle, BaseAngle.ratio lhs rhs = lhs.value / rhs.value) ∧
    (∀ (lhs : BaseAngle) (v : ℚ),
      BaseAngle.divScalar lhs v = ⟨lhs.value / v⟩) ∧
    BaseAngle.ratio ⟨90⟩ ⟨45⟩ = 2 := by
  refine ⟨fun lhs rhs => rfl, fun lhs v => rfl, ?_⟩
  norm_num [BaseAngle.ratio]

/-- `constants::degToRad` (Constants.hh): pi / 180. -/
noncomputable def degToRad : ℝ := Real.pi / 180

/-- `constants::radToDeg` (Constants.hh): 180 / pi. -/
noncomputable def radToDeg : ℝ := 180 / Real.pi

/-- `Degree<T>`: an angle measured in degrees. -/
structure Degree where
  value : ℝ

/-- `Radian<T>`: an angle measured in radians. -/
structure Radian where
  value : ℝ

/-- The Degree-to-Radian conversion constructor (old/Radian.hh):
multiplies the raw degree value by `degToRad`. -/
noncomputable def Radian.ofDegree (val : Degree) : Radian :=
  ⟨val.value * degToRad⟩

/-- Modelled from the spec: the Degree class header (cagey-math/Degree.hh,
included by the Degree tests) is absent from the sources; per the spec
the Degree-from-Radian conversion multiplies by the reciprocal factor,
`radToDeg` = 180/pi. -/
noncomputable def Degree.ofRadian (val : Radian) : Degree :=
  ⟨val.value * radToDeg⟩

/-- Claim C7: converting d degrees to radians and back recovers d (exactly,
in the real-number model of floating arithmetic); the Radian-from-Degree
conversion multiplies by pi/180 and the Degree-from-Radian conversion by
its reciprocal 180/pi. -/
theorem c7_degree_radian_roundtrip (d : ℝ) :
    (Degree.ofRadian (Radian.ofDegree ⟨d⟩)).value = d ∧
    (Radian.ofDegree ⟨d⟩).value = d * (Real.pi / 180) ∧
    (Degree.ofRadian ⟨d⟩).value = d * (180 / Real.pi) := by
  refine ⟨?_, rfl, rfl⟩
  have hpi : Real.pi ≠ 0 := Real.pi_ne_zero
  simp only [Degree.ofRadian, Radian.ofDegree, degToRad, radToDeg]
  field_simp

/-- `dot` on the generic N-component vector (cagey/math/Vector.hh):
`inner_product` of the component sequences, i.e. the sum of the
element-wise products. -/
def dot {n : ℕ} (lhs rhs : Fin n → ℝ) : ℝ :=
  ∑ i, lhs i * rhs i

/-- `lengthSquared(vec)` (cagey/math/Vector.hh): `dot(vec, vec)`. -/
def lengthSquared {n : ℕ} (vec : Fin n → ℝ) : ℝ :=
  dot vec vec

/-- `length(vec)` (cagey/math/Vector.hh): `sqrt(lengthSquared(vec))`. -/
noncomputable def length {n : ℕ} (vec : Fin n → ℝ) : ℝ :=
  Real.sqrt (lengthSquared vec)

/-- `lengthInverted(vec)` (cagey/math/Vector.hh): `1 / length(vec)`. -/
noncomputable def lengthInverted {n : ℕ} (vec : Fin n → ℝ) : ℝ :=
  1 / length vec

/-- `normalize(vec)` (cagey/math/Vector.hh): `vec *= lengthInverted(vec)`,
i.e. every component multiplied by the inverted length. -/
noncomputable def normalize {n : ℕ} (vec : Fin n → ℝ) : Fin n → ℝ :=
  fun i => vec i * lengthInverted vec

theorem lengthSquared_pos {n : ℕ} (v : Fin n → ℝ) (h : v ≠ 0) :
    0 < lengthSquared v := by
  obtain ⟨i, hi⟩ : ∃ i, v i ≠ 0 := by
    by_contra hc
    push_neg at hc
    exact h (funext fun i => hc i)
  exact Finset.sum_pos' (fun j _ => mul_self_nonneg _)
    ⟨i, Finset.mem_univ i, mul_self_pos.mpr hi⟩

theorem length_normalize_aux {n : ℕ} (v : Fin n → ℝ) (h : v ≠ 0) :
    length (normalize v) = 1 := by
  have hS : 0 < lengthSquared v := lengthSquared_pos v h
  have hsq : Real.sqrt (lengthSquared v) * Real.sqrt (lengthSquared v)
      = lengthSquared v := Real.mul_self_sqrt hS.le
  have key : lengthSquared (normalize v) = 1 := by
    have e1 : lengthSquared (normalize v)
        = (∑ i, v i * v i) * (lengthInverted v * lengthInverted v) := by
      unfold lengthSquared dot normalize
      rw [Finset.sum_mul]
      exact Finset.sum_congr rfl fun i _ => by ring
    have e2 : lengthInverted v * lengthInverted v = 1 / lengthSquared v := by
      unfold lengthInverted length
      rw [div_mul_div_comm, one_mul, hsq]
    have e3 : (∑ i, v i * v i) = lengthSquared v := rfl
    rw [e1, e2, e3, mul_one_div, div_self hS.ne']
  unfold length
  rw [key, Real.sqrt_one]

/-- Claim C6: for every nonzero vector, `normalize` produces a vector of
length 1 (exactly, in the real-number model of floating arithmetic) and
is idempotent: normalizing an already-normalized vector is the identity. -/
theorem c6_normalize_unit_and_idempotent {n : ℕ} (v : Fin n → ℝ)
    (h : v ≠ 0) :
    length (normalize v) = 1 ∧ normalize (normalize v) = normalize v := by
  refine ⟨length_normalize_aux v h, ?_⟩
  funext i
  show normalize v i * lengthInverted (normalize v) = normalize v i
  unfold lengthInverted
  rw [length_normalize_aux v h]
  norm_num

/-- Witness for C6 at the concrete nonzero vector (3, 4). -/
theorem c6_normalize_witness :
    ((![3, 4] : Fin 2 → ℝ) ≠ 0) ∧
    (length (normalize (![3, 4] : Fin 2 → ℝ)) = 1 ∧
      normalize (normalize (![3, 4] : Fin 2 → ℝ)) =
        normalize (![3, 4] : Fin 2 → ℝ)) := by
  have hne : (![3, 4] : Fin 2 → ℝ) ≠ 0 := by
    intro hc
    have h0 := congrFun hc 0
    norm_num at h0
  exact ⟨hne, c6_normalize_unit_and_idempotent ![3, 4] hne⟩

/-- `detail::metaDivide` behind `operator/(T const, Vector<T,N> const&)`
(cagey/math/Vector.hh): builds the vector of quotients `lhs / rhs[i]`,
the scalar being the dividend of every component-wise division. -/
def divScalarVector {n : ℕ} (lhs : ℚ) (rhs : Fin n → ℚ) : Fin n → ℚ :=
  fun i => lhs / rhs i

/-- `operator/(Vector<T,N>, T const)` via `operator/=`
(cagey/math/Vector.hh): every component of the vector divided by the
scalar. -/
def divVectorScalar {n : ℕ} (lhs : Fin n → ℚ) (rhs : ℚ) : Fin n → ℚ :=
  fun i => lhs i / rhs

/-- Claim C10: for a scalar s and a vector v with nonzero components, the
scalar-on-the-left quotient s / v has i-th component s / v[i] (the scalar
is the dividend), distinct from v / s whose i-th component is v[i] / s;
concretely 6 / (1,2,3) = (6,3,2). -/
theorem c10_scalar_vector_division {n : ℕ} (s : ℚ) (v : Fin n → ℚ)
    (_h : ∀ i, v i ≠ 0) :
    (∀ i, divScalarVector s v i = s / v i) ∧
    (∀ i, divVectorScalar v s i = v i / s) ∧
    divScalarVector 6 (![1, 2, 3] : Fin 3 → ℚ) = ![6, 3, 2] := by
  refine ⟨fun i => rfl, fun i => rfl, ?_⟩
  funext i
  fin_cases i <;> norm_num [divScalarVector]

/-- Witness for C10 at s = 6 and the all-nonzero vector (1, 2). -/
theorem c10_scalar_vector_division_witness :
    (∀ i, (![1, 2] : Fin 2 → ℚ) i ≠ 0) ∧
    (∀ i, divScalarVector 6 (![1, 2] : Fin 2 → ℚ) i = 6 / ![1, 2] i) := by
  have hnz : ∀ i, (![1, 2] : Fin 2 → ℚ) i ≠ 0 := by
    intro i
    fin_cases i <;> norm_num
  exact ⟨hnz, (c10_scalar_vector_division 6 ![1, 2] hnz).1⟩

end CageyMath
